import Mathlib

/-!
Verification of the benchmark orchestration harness (`benchmark.py`).

The embedding models the harness faithfully:
* the filesystem, a monotonic clock and the log are an explicit state `St`;
* the external collaborators (the design parser, the entropy computation and
  their serializers) are an opaque environment `ExtEnv`, whose fallible
  operations return `Except`;
* Python exceptions become `Except.error` values threaded through the
  state-passing functions, and `run`'s `try/except` becomes a `match` that
  converts any error into a `none` outcome plus an error log line;
* `multiprocessing.Pool.starmap` collects results in submission order, which
  the sequential `runAll` models directly (tasks share no in-memory state).
-/

/-- A task identity: (benchmark name, item name). -/
abbrev TaskId := String × String

/-- An accept/ignore rule: a benchmark name plus an optional item-name list
(`'list' not in rule` is `none`). -/
structure Rule where
  benchmark : String
  list : Option (List String)
deriving DecidableEq, Repr

/-- Embeds `check_rule(rule, collection_item)`: the benchmark names must agree and
the item must be listed unless the list is absent or empty. -/
def check_rule (rule : Rule) (collection_item : TaskId) : Bool :=
  collection_item.1 == rule.benchmark &&
    (match rule.list with
     | none => true
     | some l => l.isEmpty || l.contains collection_item.2)

/-- Embeds `apply_rules(collection, rules)`: the set of collection members matching
at least one rule (the Python builds `set(chain(filter(...) for rule in rules))`). -/
def apply_rules (collection : Finset TaskId) (rules : List Rule) : Finset TaskId :=
  rules.foldr (fun rule acc => collection.filter (fun c => check_rule rule c = true) ∪ acc) ∅

/-- The three file references of a benchmark item (`benchmark_item["files"]`). -/
structure ItemFiles where
  design : String
  tree : String
  entropy : String
deriving DecidableEq, Repr

/-- A benchmark item: name, majority-support parameter and file references. -/
structure BenchmarkItem where
  name : String
  majority_support : Bool
  files : ItemFiles
deriving DecidableEq, Repr

/-- A benchmark: a name owning an ordered list of items. -/
structure Benchmark where
  name : String
  list : List BenchmarkItem
deriving DecidableEq, Repr

/-- The universe of task identities built by `main` from the description:
`set((b["name"], it["name"]) for b in benchmarks for it in b["list"])`. -/
def collect (benchmarks : List Benchmark) : Finset TaskId :=
  (benchmarks.flatMap (fun b => b.list.map (fun it => (b.name, it.name)))).toFinset

/-- All task identities of a description in file order (before deduplication). -/
def allIds (benchmarks : List Benchmark) : List TaskId :=
  benchmarks.flatMap (fun b => b.list.map (fun it => (b.name, it.name)))

/-- The accept/ignore composition of `main` (lines 115-121): accept rules
restrict the universe when present, ignore rules are then subtracted. -/
def mainSelection (univ0 : Finset TaskId)
    (accept ignore : Option (List Rule)) : Finset TaskId :=
  let c := match accept with
    | none => univ0
    | some rules => apply_rules univ0 rules
  match ignore with
  | none => c
  | some rules => c \ apply_rules c rules

/-- Embeds `Path.is_absolute`: the path starts with the separator. -/
def isAbsolute (filename : String) : Bool :=
  match filename.data with
  | [] => false
  | c :: _ => c == '/'

/-- Embeds `path(working_directory, filename)`: absolute paths pass through,
relative ones are resolved against the working directory. -/
def path (working_directory filename : String) : String :=
  if isAbsolute filename then filename else working_directory ++ "/" ++ filename

/-- Split a character list at a separator. -/
def splitOnChar (sep : Char) : List Char → List (List Char)
  | [] => [[]]
  | c :: rest =>
    match splitOnChar sep rest with
    | [] => if c == sep then [[], [c]] else [[c]]
    | h :: t => if c == sep then [] :: h :: t else (c :: h) :: t

/-- Parent directory of a path (`tree.parent`): all components but the last. -/
def parentOf (p : String) : String :=
  String.intercalate "/"
    (((splitOnChar '/' p.data).map (fun cs => String.mk cs)).dropLast)

/-- World state: filesystem contents, created directories, a monotonic clock
(`timeit.default_timer`, one tick per filesystem operation) and the log. -/
structure St where
  files : List (String × String)
  dirs : List String
  clock : Nat
  log : List String
deriving DecidableEq, Repr

/-- File contents at a path, if the file exists. -/
def St.lookupFile (s : St) (p : String) : Option String :=
  s.files.lookup p

/-- Embeds `Path.is_file`. -/
def St.isFile (s : St) (p : String) : Bool :=
  (s.files.lookup p).isSome

/-- Reading a file ticks the clock and returns its contents when present. -/
def St.readFile (s : St) (p : String) : Option String × St :=
  (s.files.lookup p, { s with clock := s.clock + 1 })

/-- Writing a file ticks the clock and shadows any previous contents. -/
def St.writeFile (s : St) (p c : String) : St :=
  { s with files := (p, c) :: s.files, clock := s.clock + 1 }

/-- Embeds `p.mkdir(parents=True, exist_ok=True)`: records the directory, ticks. -/
def St.mkdirParents (s : St) (d : String) : St :=
  { s with dirs := d :: s.dirs, clock := s.clock + 1 }

/-- Appending a log line (both `logging.info` and `logging.error`). -/
def St.logLine (s : St) (m : String) : St :=
  { s with log := m :: s.log }

/-- The external collaborators: `landauer.parse` and `landauer.entropy`.
`T` is the opaque tree artifact type, `E` the entropy artifact type; the
fallible operations model Python calls that may raise. -/
structure ExtEnv (T E : Type) where
  parse : String → Bool → Except String T
  parseSerialize : T → String
  parseDeserialize : String → Except String T
  entropy : T → Nat → Except String E
  entropySerialize : E → String

/-- Embeds `get_tree_data(tree, design_data, majority_support, overwrite)`:
compute-or-load the tree artifact, with timing. -/
def get_tree_data {T E : Type} (ext : ExtEnv T E) (tree : String)
    (design_data : String) (majority_support overwrite : Bool) (s : St) :
    Except String (T × Bool × Nat) × St :=
  let start := s.clock
  if overwrite || !s.isFile tree then
    let s1 := s.mkdirParents (parentOf tree)
    match ext.parse design_data majority_support with
    | .error e => (.error e, s1)
    | .ok tree_data =>
      let s2 := s1.writeFile tree (ext.parseSerialize tree_data)
      (.ok (tree_data, true, s2.clock - start), s2)
  else
    match s.readFile tree with
    | (none, s1) => (.error "tree file vanished", s1)
    | (some content, s1) =>
      match ext.parseDeserialize content with
      | .error e => (.error e, s1)
      | .ok tree_data => (.ok (tree_data, false, s1.clock - start), s1)

/-- Embeds `generate_entropy_data(entropy_file, tree_data, overwrite, timeout)`:
compute-or-skip the entropy artifact, with timing. -/
def generate_entropy_data {T E : Type} (ext : ExtEnv T E) (entropy_file : String)
    (tree_data : T) (overwrite : Bool) (timeout : Nat) (s : St) :
    Except String (Bool × Nat) × St :=
  let start := s.clock
  if overwrite || !s.isFile entropy_file then
    let s1 := s.mkdirParents (parentOf entropy_file)
    match ext.entropy tree_data timeout with
    | .error e => (.error e, s1)
    | .ok entropy_data =>
      let s2 := s1.writeFile entropy_file (ext.entropySerialize entropy_data)
      (.ok (true, s2.clock - start), s2)
  else
    (.ok (false, s.clock - start), s)

/-- A successful task outcome: the tuple `run` returns (the report columns). -/
structure RunResult where
  benchmark : String
  name : String
  tree_overwritten : Bool
  tree_time : Nat
  entropy_overwritten : Bool
  entropy_time : Nat
deriving DecidableEq, Repr

/-- The started log line. -/
def startMsg (name benchmark : String) : String :=
  name ++ " from " ++ benchmark ++ ": started"

/-- The completion log line. -/
def doneMsg (name benchmark : String) : String :=
  name ++ " from " ++ benchmark ++ ": completed"

/-- The failure log line: task identity plus the error message. -/
def failMsg (name benchmark e : String) : String :=
  name ++ " from " ++ benchmark ++ ": failed: " ++ e

/-- The assertion message for a missing design file. -/
def notFoundMsg (name benchmark : String) : String :=
  name ++ " from " ++ benchmark ++ ": design not found"

/-- The body of `run`'s `try` block: resolve paths, assert the design file,
read it, drive the tree cache step, then the entropy cache step with
`overwrite or tree_overwritten`. Any raised exception is an `Except.error`. -/
def runBody {T E : Type} (ext : ExtEnv T E) (working_directory benchmark : String)
    (item : BenchmarkItem) (overwrite : Bool) (timeout : Nat) (s : St) :
    Except String RunResult × St :=
  let design := path working_directory item.files.design
  if !s.isFile design then
    (.error (notFoundMsg item.name benchmark), s)
  else
    match s.readFile design with
    | (none, s1) => (.error "design file vanished", s1)
    | (some design_data, s1) =>
      let tree := path working_directory item.files.tree
      match get_tree_data ext tree design_data item.majority_support overwrite s1 with
      | (.error e, s2) => (.error e, s2)
      | (.ok (tree_data, tree_overwritten, tree_time), s2) =>
        let entropy_file := path working_directory item.files.entropy
        match generate_entropy_data ext entropy_file tree_data
            (overwrite || tree_overwritten) timeout s2 with
        | (.error e, s3) => (.error e, s3)
        | (.ok (entropy_overwritten, entropy_time), s3) =>
          (.ok ⟨benchmark, item.name, tree_overwritten, tree_time,
                entropy_overwritten, entropy_time⟩, s3)

/-- Embeds `run(working_directory, benchmark, benchmark_item, overwrite, timeout)`:
logs the start, runs the body, and catches any exception at the task
boundary, logging the identity and the message and returning `none`. -/
def run {T E : Type} (ext : ExtEnv T E) (working_directory benchmark : String)
    (item : BenchmarkItem) (overwrite : Bool) (timeout : Nat) (s : St) :
    Option RunResult × St :=
  let s0 := s.logLine (startMsg item.name benchmark)
  match runBody ext working_directory benchmark item overwrite timeout s0 with
  | (.ok r, s1) => (some r, s1.logLine (doneMsg item.name benchmark))
  | (.error e, s1) => (none, s1.logLine (failMsg item.name benchmark e))

/-- A dispatched task: `(working_directory, benchmark name, benchmark_item)`
(the shared overwrite flag and timeout are passed separately). -/
abbrev TaskSpec := String × String × BenchmarkItem

/-- The dispatched task list of `main` (lines 125-126): description order,
restricted to the selected identities. -/
def mkTasks (working_directory : String) (benchmarks : List Benchmark)
    (collection : Finset TaskId) : List TaskSpec :=
  benchmarks.flatMap (fun b =>
    (b.list.filter (fun it => decide ((b.name, it.name) ∈ collection))).map
      (fun it => (working_directory, b.name, it)))

/-- Identities of a dispatched task list. -/
def taskIds (tasks : List TaskSpec) : List TaskId :=
  tasks.map (fun t => (t.2.1, t.2.2.name))

/-- Embeds `pool.starmap(run, tasks)`: every task runs, results are collected in
submission order (the pool guarantees this regardless of completion order;
tasks share no in-memory state, so the sequential model is faithful). -/
def runAll {T E : Type} (ext : ExtEnv T E) (overwrite : Bool) (timeout : Nat)
    (tasks : List TaskSpec) (s : St) : List (Option RunResult) × St :=
  match tasks with
  | [] => ([], s)
  | (wd, b, it) :: rest =>
    let (r, s1) := run ext wd b it overwrite timeout s
    let (rs, s2) := runAll ext overwrite timeout rest s1
    (r :: rs, s2)

/-- The report rows: `filter(None, result)` keeps the successes in order;
each `RunResult` row carries exactly the DataFrame columns
benchmark, name, tree_overwritten, tree_time, entropy_overwritten,
entropy_time. -/
def report (results : List (Option RunResult)) : List RunResult :=
  results.filterMap id

/-- A concrete round-tripping external environment (tree and entropy
artifacts are plain strings), used to instantiate theorems. -/
def extId : ExtEnv String String where
  parse := fun d _ => .ok d
  parseSerialize := fun t => t
  parseDeserialize := fun c => .ok c
  entropy := fun t _ => .ok t
  entropySerialize := fun e => e

/-- A concrete external environment whose deserializer always fails,
modelling a corrupted artifact file. -/
def extBad : ExtEnv String String where
  parse := fun d _ => .ok d
  parseSerialize := fun t => t
  parseDeserialize := fun _ => .error "bad json"
  entropy := fun t _ => .ok t
  entropySerialize := fun e => e

/-- A concrete benchmark item with relative design/tree/entropy paths. -/
def item0 : BenchmarkItem := ⟨"x", false, ⟨"d", "t", "e"⟩⟩

/-- An empty world. -/
def stEmpty : St := ⟨[], [], 0, []⟩

/-- A world holding only the design file of `item0` under root `w`. -/
def stD : St := ⟨[("w/d", "D")], [], 0, []⟩

/-- A world holding the design file and a stale entropy artifact, but no
tree artifact, for `item0` under root `w`. -/
def stDE : St := ⟨[("w/d", "D"), ("w/e", "Eold")], [], 0, []⟩

/-- A world holding the design file and a corrupted tree artifact for
`item0` under root `w`. -/
def stBadTree : St := ⟨[("w/d", "D"), ("w/t", "garbage")], [], 0, []⟩

/-- A duplicated description: one benchmark with two items named `x`. -/
def bsDup : List Benchmark :=
  [⟨"A", [⟨"x", false, ⟨"d1", "t1", "e1"⟩⟩, ⟨"x", false, ⟨"d2", "t2", "e2"⟩⟩]⟩]

/-- A well-formed description: one benchmark with items `x` and `y`. -/
def bsOk : List Benchmark :=
  [⟨"A", [⟨"x", false, ⟨"d1", "t1", "e1"⟩⟩, ⟨"y", false, ⟨"d2", "t2", "e2"⟩⟩]⟩]

/-- The filesystem only grows: every file of `s` is still a file of `s2`
(no operation of the harness ever deletes a file). -/
def filesGrow (s s2 : St) : Prop :=
  ∀ p, s.isFile p = true → s2.isFile p = true

/-- All three files of a task are present on disk. -/
def taskFilesOk (s : St) (t : TaskSpec) : Prop :=
  s.isFile (path t.1 t.2.2.files.design) = true ∧
  s.isFile (path t.1 t.2.2.files.tree) = true ∧
  s.isFile (path t.1 t.2.2.files.entropy) = true

/-- A concrete single-task list over `item0`. -/
def tasks0 : List TaskSpec := [("w", "A", item0)]

/-- Membership in `apply_rules`: a member of the collection matching at least
one rule (set-builder reading of the chained filters). -/
theorem mem_apply_rules (collection : Finset TaskId) (rules : List Rule) (c : TaskId) :
    c ∈ apply_rules collection rules ↔
      c ∈ collection ∧ ∃ r ∈ rules, check_rule r c = true := by
  induction rules with
  | nil => simp [apply_rules]
  | cons r rs ih =>
    simp only [apply_rules, List.foldr_cons] at ih ⊢
    simp only [Finset.mem_union, Finset.mem_filter, ih, List.mem_cons]
    constructor
    · rintro (⟨hc, hr⟩ | ⟨hc, r₀, hr₀, hchk⟩)
      · exact ⟨hc, r, Or.inl rfl, hr⟩
      · exact ⟨hc, r₀, Or.inr hr₀, hchk⟩
    · rintro ⟨hc, r₀, (rfl | hr₀), hchk⟩
      · exact Or.inl ⟨hc, hchk⟩
      · exact Or.inr ⟨hc, r₀, hr₀, hchk⟩

/-- C5: `check_rule` matches iff the benchmark names agree and the item list
is absent, empty, or contains the item; `apply_rules` with no rules selects
nothing; a rule naming a benchmark absent from the universe matches nothing. -/
theorem c5_check_rule_semantics :
    (∀ (rule : Rule) (bn it : String),
       check_rule rule (bn, it) = true ↔
         bn = rule.benchmark ∧ ∀ l, rule.list = some l → (l = [] ∨ it ∈ l)) ∧
    (∀ u : Finset TaskId, apply_rules u [] = ∅) ∧
    (∀ (u : Finset TaskId) (rule : Rule),
       (∀ c ∈ u, c.1 ≠ rule.benchmark) → apply_rules u [rule] = ∅) := by
  refine ⟨?_, ?_, ?_⟩
  · intro rule bn it
    cases h : rule.list with
    | none => simp [check_rule, h]
    | some l =>
      simp [check_rule, h, List.isEmpty_iff, List.contains]
  · intro u
    simp [apply_rules]
  · intro u rule h
    rw [Finset.eq_empty_iff_forall_not_mem]
    intro c hc
    rw [mem_apply_rules] at hc
    obtain ⟨hcu, r, hr, hchk⟩ := hc
    simp only [List.mem_singleton] at hr
    subst hr
    simp only [check_rule, Bool.and_eq_true, beq_iff_eq] at hchk
    exact h c hcu hchk.1

/-- C5 witness: a rule naming benchmark `B`, absent from the universe,
selects nothing. -/
theorem c5_witness :
    apply_rules {(("A" : String), ("x" : String))} [⟨"B", none⟩] = ∅ :=
  c5_check_rule_semantics.2.2 {("A", "x")} ⟨"B", none⟩ (by decide)

/-- C6: the accept/ignore composition of `main`: no accept rules keeps the
whole universe, accept rules apply `apply_rules`, ignore rules subtract
`apply_rules` of the current selection; with the two concrete scenarios. -/
theorem c6_selection_composition :
    (∀ u : Finset TaskId, mainSelection u none none = u) ∧
    (∀ (u : Finset TaskId) (a : List Rule),
       mainSelection u (some a) none = apply_rules u a) ∧
    (∀ (u : Finset TaskId) (i : List Rule),
       mainSelection u none (some i) = u \ apply_rules u i) ∧
    (∀ (u : Finset TaskId) (a i : List Rule),
       mainSelection u (some a) (some i) =
         apply_rules u a \ apply_rules (apply_rules u a) i) ∧
    mainSelection {(("A" : String), ("x" : String)), ("A", "y"), ("B", "z")}
      (some [⟨"A", some []⟩]) none = {("A", "x"), ("A", "y")} ∧
    mainSelection {(("A" : String), ("x" : String)), ("A", "y"), ("B", "z")}
      (some [⟨"A", some []⟩]) (some [⟨"A", some ["x"]⟩]) = {("A", "y")} := by
  refine ⟨fun u => rfl, fun u a => rfl, fun u i => rfl, fun u a i => rfl, ?_, ?_⟩
  · decide
  · decide

/-- C3: the tree cache step recomputes iff overwrite is set or the file is
missing; the recompute branch creates the parent directory, writes the
serialized result and reports `true`; the cache-hit branch deserializes the
stored contents, reports `false` and leaves the filesystem unchanged; an
elapsed duration is returned in both branches. -/
theorem c3_get_tree_data_cache {T E : Type} (ext : ExtEnv T E) (tree dd : String)
    (ms ow : Bool) (s : St) :
    ((ow || !s.isFile tree) = true →
       ∀ td, ext.parse dd ms = .ok td →
         ∃ dt s', get_tree_data ext tree dd ms ow s = (.ok (td, true, dt), s') ∧
           s'.lookupFile tree = some (ext.parseSerialize td) ∧
           parentOf tree ∈ s'.dirs) ∧
    ((ow || !s.isFile tree) = false →
       ∀ c, s.lookupFile tree = some c →
         ∀ td, ext.parseDeserialize c = .ok td →
           ∃ dt s', get_tree_data ext tree dd ms ow s = (.ok (td, false, dt), s') ∧
             s'.files = s.files ∧ s'.dirs = s.dirs) ∧
    (∀ td flag dt s', get_tree_data ext tree dd ms ow s = (.ok (td, flag, dt), s') →
       flag = (ow || !s.isFile tree)) := by
  refine ⟨?_, ?_, ?_⟩
  · intro hcond td hp
    refine ⟨2, (s.mkdirParents (parentOf tree)).writeFile tree (ext.parseSerialize td),
      ?_, ?_, ?_⟩
    · simp [get_tree_data, hcond, hp, St.mkdirParents, St.writeFile]
      omega
    · simp [St.lookupFile, St.writeFile, List.lookup]
    · simp [St.writeFile, St.mkdirParents]
  · intro hcond c hc td hd
    refine ⟨1, { s with clock := s.clock + 1 }, ?_, rfl, rfl⟩
    simp only [St.lookupFile] at hc
    simp [get_tree_data, hcond, St.readFile, hc, hd]
  · intro td flag dt s' h
    by_cases hcond : (ow || !s.isFile tree) = true
    · cases hp : ext.parse dd ms with
      | error e => simp [get_tree_data, hcond, hp] at h
      | ok td' =>
        rw [hcond]
        simp [get_tree_data, hcond, hp] at h
        exact h.1.2.1
    · have hcond' : (ow || !s.isFile tree) = false := by
        simpa using hcond
      rw [hcond']
      cases hc : s.files.lookup tree with
      | none => simp [get_tree_data, hcond', St.readFile, hc] at h
      | some c =>
        cases hd : ext.parseDeserialize c with
        | error e => simp [get_tree_data, hcond', St.readFile, hc, hd] at h
        | ok td' =>
          simp [get_tree_data, hcond', St.readFile, hc, hd] at h
          exact h.1.2.1

/-- C3 witness: with overwrite set over an empty world, the tree artifact is
computed, serialized and written, and `true` is reported. -/
theorem c3_witness :
    ∃ dt s', get_tree_data extId "w/t" "D" false true stEmpty =
        (.ok ("D", true, dt), s') ∧
      s'.lookupFile "w/t" = some (extId.parseSerialize "D") ∧
      parentOf "w/t" ∈ s'.dirs :=
  (c3_get_tree_data_cache extId "w/t" "D" false true stEmpty).1 (by decide) "D" rfl

/-- With the overwrite flag set, a successful entropy step always reports
that it recomputed. -/
theorem gen_entropy_flag_true {T E : Type} (ext : ExtEnv T E) (p : String)
    (td : T) (tmo : Nat) (s : St) (bflag : Bool) (t : Nat) (s' : St)
    (h : generate_entropy_data ext p td true tmo s = (.ok (bflag, t), s')) :
    bflag = true := by
  cases he : ext.entropy td tmo with
  | error e => simp [generate_entropy_data, he] at h
  | ok ed =>
    simp [generate_entropy_data, he] at h
    exact h.1.1

/-- A successful `runBody` carries the task identity, and its entropy flag
is forced whenever the flag passed tmo the entropy step
(`overwrite || tree_overwritten`) is true. -/
theorem runBody_ok_flags {T E : Type} (ext : ExtEnv T E) (wd b : String)
    (item : BenchmarkItem) (ow : Bool) (tmo : Nat) (s : St) (r : RunResult) (s' : St)
    (h : runBody ext wd b item ow tmo s = (.ok r, s')) :
    r.benchmark = b ∧ r.name = item.name ∧
      ((ow || r.tree_overwritten) = true → r.entropy_overwritten = true) := by
  unfold runBody at h
  by_cases hd : (!s.isFile (path wd item.files.design)) = true
  · rw [if_pos hd] at h
    exact absurd h (by simp)
  · rw [if_neg hd] at h
    simp only [St.readFile] at h
    cases hl : s.files.lookup (path wd item.files.design) with
    | none => rw [hl] at h; simp at h
    | some dd =>
      rw [hl] at h
      simp only at h
      cases hg : get_tree_data ext (path wd item.files.tree) dd
          item.majority_support ow { s with clock := s.clock + 1 } with
      | mk res s2 =>
        rw [hg] at h
        cases res with
        | error e => simp at h
        | ok v =>
          obtain ⟨td, tov, tt⟩ := v
          simp only at h
          cases hge : generate_entropy_data ext (path wd item.files.entropy) td
              (ow || tov) tmo s2 with
          | mk eres s3 =>
            rw [hge] at h
            cases eres with
            | error e => simp at h
            | ok ev =>
              obtain ⟨eov, et⟩ := ev
              simp only at h
              injection h with h1 h2
              injection h1 with h1
              subst h1
              refine ⟨rfl, rfl, ?_⟩
              intro hflag
              rw [hflag] at hge
              exact gen_entropy_flag_true ext _ td tmo s2 eov et s3 hge

/-- C2: forward staleness. If a task succeeds and its tree artifact was
recomputed (or the caller's overwrite flag was set — the entropy step
receives `overwrite || tree_overwritten`), then its entropy artifact was
recomputed on the same run, even when the entropy file already exists. -/
theorem c2_forward_staleness {T E : Type} (ext : ExtEnv T E) (wd b : String)
    (item : BenchmarkItem) (ow : Bool) (tmo : Nat) (s : St) (r : RunResult)
    (h : (run ext wd b item ow tmo s).1 = some r)
    (hflag : (ow || r.tree_overwritten) = true) :
    r.entropy_overwritten = true := by
  simp only [run] at h
  cases hb : runBody ext wd b item ow tmo (s.logLine (startMsg item.name b)) with
  | mk res s1 =>
    rw [hb] at h
    cases res with
    | error e => simp at h
    | ok r' =>
      simp only at h
      injection h with h
      subst h
      exact (runBody_ok_flags ext wd b item ow tmo _ r' s1 hb).2.2 hflag

/-- C2 witness: overwrite false, entropy file present, tree file absent:
the tree is recomputed and so is the entropy artifact. -/
theorem c2_witness :
    ((run extId "w" "A" item0 false 0 stDE).1.map RunResult.entropy_overwritten) =
      some true := by
  have h : (run extId "w" "A" item0 false 0 stDE).1 =
      some ⟨"A", "x", true, 2, true, 2⟩ := by decide
  have h2 := c2_forward_staleness extId "w" "A" item0 false 0 stDE
    ⟨"A", "x", true, 2, true, 2⟩ h (by rfl)
  rw [h]
  simp [h2]

/-- C1: any error raised inside the task body is caught at the task
boundary: `run` returns the failure outcome `none`, the log receives a line
naming the task identity and the error message, and sibling tasks in the
task list still run from the resulting state (the failure does not
propagate). -/
theorem c1_run_catches_failures {T E : Type} (ext : ExtEnv T E) (wd b : String)
    (item : BenchmarkItem) (ow : Bool) (tmo : Nat) (s : St) (e : String) (s1 : St)
    (h : runBody ext wd b item ow tmo (s.logLine (startMsg item.name b)) =
      (.error e, s1)) :
    run ext wd b item ow tmo s = (none, s1.logLine (failMsg item.name b e)) ∧
    failMsg item.name b e ∈ (run ext wd b item ow tmo s).2.log ∧
    (∀ rest, (runAll ext ow tmo ((wd, b, item) :: rest) s).1 =
       none :: (runAll ext ow tmo rest (s1.logLine (failMsg item.name b e))).1) := by
  have hrun : run ext wd b item ow tmo s =
      (none, s1.logLine (failMsg item.name b e)) := by
    simp only [run]
    rw [h]
  refine ⟨hrun, ?_, ?_⟩
  · rw [hrun]
    simp [St.logLine]
  · intro rest
    simp [runAll, hrun]

/-- C1 witness: a missing design file is caught and logged, and the task
reports failure. -/
theorem c1_witness :
    run extId "w" "A" item0 false 0 stEmpty =
      (none, ((stEmpty.logLine (startMsg "x" "A")).logLine
        (failMsg "x" "A" (notFoundMsg "x" "A")))) :=
  (c1_run_catches_failures extId "w" "A" item0 false 0 stEmpty
    (notFoundMsg "x" "A") (stEmpty.logLine (startMsg "x" "A")) (by rfl)).1

/-- A failing deserialize of an existing tree artifact makes the tree cache
step raise: the error propagates out of `get_tree_data` (no recompute). -/
theorem get_tree_data_deserialize_error {T E : Type} (ext : ExtEnv T E)
    (tree dd c e : String) (ms : Bool) (s : St)
    (hfile : s.isFile tree = true) (hc : s.lookupFile tree = some c)
    (hde : ext.parseDeserialize c = .error e) :
    get_tree_data ext tree dd ms false s =
      (.error e, { s with clock := s.clock + 1 }) := by
  simp only [St.lookupFile] at hc
  simp [get_tree_data, hfile, St.readFile, hc, hde]

/-- C8 (amended): a task whose tree artifact file exists but fails to
deserialize is treated like any other task error: `run` returns the failure
outcome, logs identity and message, and leaves the filesystem unchanged —
the artifact is not recomputed. -/
theorem c8_deserialize_failure_fails_task {T E : Type} (ext : ExtEnv T E)
    (wd b : String) (item : BenchmarkItem) (tmo : Nat) (s : St) (c e : String)
    (hdesign : s.isFile (path wd item.files.design) = true)
    (htree : s.lookupFile (path wd item.files.tree) = some c)
    (hde : ext.parseDeserialize c = .error e) :
    (run ext wd b item false tmo s).1 = none ∧
    ((run ext wd b item false tmo s).2).files = s.files ∧
    failMsg item.name b e ∈ ((run ext wd b item false tmo s).2).log := by
  obtain ⟨dd, hdd⟩ : ∃ dd,
      s.files.lookup (path wd item.files.design) = some dd := by
    simpa only [St.isFile, Option.isSome_iff_exists] using hdesign
  have htree' : List.lookup (path wd item.files.tree) s.files = some c := htree
  have hfile2 : (St.mk s.files s.dirs (s.clock + 1)
      (startMsg item.name b :: s.log)).isFile (path wd item.files.tree) = true := by
    simp [St.isFile, htree']
  have hstep := get_tree_data_deserialize_error ext (path wd item.files.tree) dd c e
    item.majority_support ⟨s.files, s.dirs, s.clock + 1, startMsg item.name b :: s.log⟩
    hfile2 htree hde
  simp only at hstep
  simp only [run, runBody, St.readFile, St.logLine, St.isFile, hdd]
  simp [hstep]

/-- C8 counterexample: with a corrupted tree artifact on disk, the harness
does NOT recompute the tree artifact; the task fails (outcome `none`) and
the corrupted file is left in place. -/
theorem c8_counterexample :
    (run extBad "w" "A" item0 false 0 stBadTree).1 = none ∧
    ((run extBad "w" "A" item0 false 0 stBadTree).2).lookupFile "w/t" =
      some "garbage" := by
  decide

/-- C8 witness: the amended behaviour at the corrupted-artifact world. -/
theorem c8_witness :
    (run extBad "w" "A" item0 false 0 stBadTree).1 = none ∧
    ((run extBad "w" "A" item0 false 0 stBadTree).2).files = stBadTree.files ∧
    failMsg "x" "A" "bad json" ∈ ((run extBad "w" "A" item0 false 0 stBadTree).2).log :=
  c8_deserialize_failure_fails_task extBad "w" "A" item0 0 stBadTree "garbage"
    "bad json" (by decide) (by decide) rfl

/-- Dropping the `none` markers of an option list keeps the survivors in
their original relative order. -/
theorem filterMap_id_map_some_sublist {α : Type} (l : List (Option α)) :
    List.Sublist ((l.filterMap id).map some) l := by
  induction l with
  | nil => simp
  | cons a t ih =>
    cases a with
    | none =>
      simp only [List.filterMap_cons, id]
      exact ih.cons none
    | some x =>
      simp only [List.filterMap_cons, id, List.map_cons]
      exact ih.cons₂ (some x)

/-- C7: the executor produces one result per submitted task; the report
keeps exactly the successful outcomes (failure markers are dropped), as
`RunResult` rows (columns: benchmark, name, tree_overwritten, tree_time,
entropy_overwritten, entropy_time), in submission order (the rows, wrapped
back in `some`, form a sublist of the submission-ordered result list). -/
theorem c7_report_successes_in_order {T E : Type} (ext : ExtEnv T E) (ow : Bool)
    (tmo : Nat) (tasks : List TaskSpec) (s : St) :
    (runAll ext ow tmo tasks s).1.length = tasks.length ∧
    (∀ r, r ∈ report (runAll ext ow tmo tasks s).1 ↔
       some r ∈ (runAll ext ow tmo tasks s).1) ∧
    List.Sublist ((report (runAll ext ow tmo tasks s).1).map some)
      (runAll ext ow tmo tasks s).1 := by
  refine ⟨?_, ?_, filterMap_id_map_some_sublist _⟩
  · induction tasks generalizing s with
    | nil => rfl
    | cons t rest ih =>
      obtain ⟨wd, b, it⟩ := t
      simp only [runAll]
      cases hr : run ext wd b it ow tmo s with
      | mk r s1 =>
        cases hall : runAll ext ow tmo rest s1 with
        | mk rs s2 =>
          have h2 := ih s1
          rw [hall] at h2
          simpa using h2
  · intro r
    simp only [report]
    induction (runAll ext ow tmo tasks s).1 with
    | nil => simp
    | cons a t ih =>
      cases a with
      | none => simp [List.filterMap_cons, id, ih]
      | some x => simp [List.filterMap_cons, id, ih]

/-- Per-benchmark identities of the dispatched tasks: filtering items first
and projecting to identities equals projecting and then filtering. -/
theorem map_name_filter_mem (bn : String) (c : Finset TaskId)
    (l : List BenchmarkItem) :
    ((l.filter (fun it => decide ((bn, it.name) ∈ c))).map
        (fun it => (bn, it.name))) =
      (l.map (fun it => (bn, it.name))).filter (fun x => decide (x ∈ c)) := by
  induction l with
  | nil => rfl
  | cons it rest ih =>
    by_cases h : ((bn, it.name) ∈ c)
    · simp [List.filter_cons, h, ih]
    · simp [List.filter_cons, h, ih]

/-- The identities of the dispatched task list are the description's
identities, in description order, restricted to the selection. -/
theorem taskIds_mkTasks (wd : String) (bs : List Benchmark) (c : Finset TaskId) :
    taskIds (mkTasks wd bs c) = (allIds bs).filter (fun x => decide (x ∈ c)) := by
  induction bs with
  | nil => rfl
  | cons b rest ih =>
    simp only [mkTasks, allIds, List.flatMap_cons, List.filter_append] at ih ⊢
    simp only [taskIds, List.map_append] at ih ⊢
    rw [ih]
    congr 1
    simpa [Function.comp] using map_name_filter_mem b.name c b.list

/-- The function `apply_rules` is invariant under permutations of the rule list. -/
theorem apply_rules_perm (u : Finset TaskId) {rs rs' : List Rule}
    (h : rs.Perm rs') : apply_rules u rs = apply_rules u rs' := by
  ext x
  simp [mem_apply_rules, h.mem_iff]

/-- C9 counterexample: a description repeating the item name `x` inside
benchmark `A` dispatches two tasks with the same identity. -/
theorem c9_counterexample :
    ¬ (taskIds (mkTasks "w" bsDup (collect bsDup))).Nodup := by
  decide

/-- C9 (amended): when the description's (benchmark, item) identities are
duplicate-free, each identity occurs at most once in the dispatched task
list, for every selection (hence for every accept/ignore configuration). -/
theorem c9_unique_identities (wd : String) (bs : List Benchmark)
    (c : Finset TaskId) (h : (allIds bs).Nodup) :
    (taskIds (mkTasks wd bs c)).Nodup := by
  rw [taskIds_mkTasks]
  exact h.filter _

/-- C9 witness: a duplicate-free description dispatches unique identities. -/
theorem c9_witness : (taskIds (mkTasks "w" bsOk (collect bsOk))).Nodup :=
  c9_unique_identities "w" bsOk (collect bsOk) (by decide)

/-- C10: the dispatched task list follows the description order restricted
to the selected identities; the selection — hence the task list and the
report order — is a function of the rule lists up to permutation (and, being
a `Finset`, carries no iteration order). -/
theorem c10_task_order (wd : String) :
    (∀ (bs : List Benchmark) (c : Finset TaskId),
       taskIds (mkTasks wd bs c) = (allIds bs).filter (fun x => decide (x ∈ c))) ∧
    (∀ (u : Finset TaskId) (a a' i i' : List Rule), a.Perm a' → i.Perm i' →
       mainSelection u (some a) (some i) = mainSelection u (some a') (some i')) ∧
    (∀ (bs : List Benchmark) (u : Finset TaskId) (a a' i i' : List Rule),
       a.Perm a' → i.Perm i' →
       mkTasks wd bs (mainSelection u (some a) (some i)) =
         mkTasks wd bs (mainSelection u (some a') (some i'))) := by
  have hsel : ∀ (u : Finset TaskId) (a a' i i' : List Rule),
      a.Perm a' → i.Perm i' →
      mainSelection u (some a) (some i) = mainSelection u (some a') (some i') := by
    intro u a a' i i' ha hi
    simp only [mainSelection]
    rw [apply_rules_perm u ha, apply_rules_perm _ hi]
  refine ⟨taskIds_mkTasks wd, hsel, ?_⟩
  intro bs u a a' i i' ha hi
  rw [hsel u a a' i i' ha hi]

/-- C10 witness: swapping two accept rules leaves the dispatched task list
unchanged. -/
theorem c10_witness :
    mkTasks "w" bsOk
        (mainSelection (collect bsOk) (some [⟨"A", none⟩, ⟨"B", none⟩]) (some [])) =
      mkTasks "w" bsOk
        (mainSelection (collect bsOk) (some [⟨"B", none⟩, ⟨"A", none⟩]) (some [])) :=
  (c10_task_order "w").2.2 bsOk (collect bsOk) _ _ _ _ (by decide) (List.Perm.refl _)

/-- Writing a file keeps every existing file on disk. -/
theorem isFile_writeFile (s : St) (p q c : String) (h : s.isFile p = true) :
    (s.writeFile q c).isFile p = true := by
  simp only [St.isFile] at h
  simp only [St.isFile, St.writeFile, List.lookup]
  cases hq : p == q
  · simpa using h
  · simp

/-- A successful tree cache step leaves the tree artifact on disk and never
deletes a file. -/
theorem get_tree_data_ok_post {T E : Type} (ext : ExtEnv T E) (tree dd : String)
    (ms ow : Bool) (s : St) (v : T × Bool × Nat) (s2 : St)
    (h : get_tree_data ext tree dd ms ow s = (.ok v, s2)) :
    filesGrow s s2 ∧ s2.isFile tree = true := by
  by_cases hc : (ow || !s.isFile tree) = true
  · cases hp : ext.parse dd ms with
    | error e => simp [get_tree_data, hc, hp] at h
    | ok td =>
      simp only [get_tree_data, hc, if_true, hp] at h
      injection h with h1 h2
      subst h2
      constructor
      · intro p hp2
        exact isFile_writeFile _ p tree _ (by simpa [St.isFile, St.mkdirParents] using hp2)
      · simp [St.isFile, St.writeFile, List.lookup]
  · have hc' : (ow || !s.isFile tree) = false := by simpa using hc
    have hfile : s.isFile tree = true := by
      rcases Bool.or_eq_false_iff.mp hc' with ⟨h1, h2⟩
      simpa using h2
    cases hl : List.lookup tree s.files with
    | none => simp [St.isFile, hl] at hfile
    | some ct =>
      cases hd : ext.parseDeserialize ct with
      | error e => simp [get_tree_data, hc', St.readFile, hl, hd] at h
      | ok td =>
        simp only [get_tree_data, hc', Bool.false_eq_true, if_false, St.readFile,
          hl, hd] at h
        injection h with h1 h2
        subst h2
        exact ⟨fun p hp2 => by simpa [St.isFile] using hp2,
          by simpa [St.isFile] using hfile⟩

/-- A successful entropy cache step leaves the entropy artifact on disk and
never deletes a file. -/
theorem gen_entropy_ok_post {T E : Type} (ext : ExtEnv T E) (p : String) (td : T)
    (ow : Bool) (tmo : Nat) (s : St) (v : Bool × Nat) (s2 : St)
    (h : generate_entropy_data ext p td ow tmo s = (.ok v, s2)) :
    filesGrow s s2 ∧ s2.isFile p = true := by
  by_cases hc : (ow || !s.isFile p) = true
  · cases he : ext.entropy td tmo with
    | error e => simp [generate_entropy_data, hc, he] at h
    | ok ed =>
      simp only [generate_entropy_data, hc, if_true, he] at h
      injection h with h1 h2
      subst h2
      constructor
      · intro q hq
        exact isFile_writeFile _ q p _ (by simpa [St.isFile, St.mkdirParents] using hq)
      · simp [St.isFile, St.writeFile, List.lookup]
  · have hc' : (ow || !s.isFile p) = false := by simpa using hc
    have hfile : s.isFile p = true := by
      rcases Bool.or_eq_false_iff.mp hc' with ⟨h1, h2⟩
      simpa using h2
    simp only [generate_entropy_data, hc', Bool.false_eq_true, if_false] at h
    injection h with h1 h2
    subst h2
    exact ⟨fun q hq => hq, hfile⟩

/-- A successful task body leaves all three task files on disk and never
deletes a file. -/
theorem runBody_ok_post {T E : Type} (ext : ExtEnv T E) (wd b : String)
    (item : BenchmarkItem) (ow : Bool) (tmo : Nat) (s : St) (r : RunResult) (s2 : St)
    (h : runBody ext wd b item ow tmo s = (.ok r, s2)) :
    filesGrow s s2 ∧ taskFilesOk s2 (wd, b, item) := by
  unfold runBody at h
  by_cases hd0 : (!s.isFile (path wd item.files.design)) = true
  · rw [if_pos hd0] at h
    exact absurd h (by simp)
  · rw [if_neg hd0] at h
    have hdes : s.isFile (path wd item.files.design) = true := by simpa using hd0
    simp only [St.readFile] at h
    cases hl : s.files.lookup (path wd item.files.design) with
    | none => rw [hl] at h; simp at h
    | some dd =>
      rw [hl] at h
      simp only at h
      cases hg : get_tree_data ext (path wd item.files.tree) dd
          item.majority_support ow { s with clock := s.clock + 1 } with
      | mk res s1 =>
        rw [hg] at h
        cases res with
        | error e => simp at h
        | ok v =>
          obtain ⟨td, tov, tt⟩ := v
          obtain ⟨hg1, hg2⟩ := get_tree_data_ok_post ext _ dd _ ow _ _ _ hg
          simp only at h
          cases hge : generate_entropy_data ext (path wd item.files.entropy) td
              (ow || tov) tmo s1 with
          | mk eres s3 =>
            rw [hge] at h
            cases eres with
            | error e => simp at h
            | ok ev =>
              obtain ⟨eov, et⟩ := ev
              obtain ⟨he1, he2⟩ := gen_entropy_ok_post ext _ td _ tmo _ _ _ hge
              simp only at h
              injection h with h1 h2
              subst h2
              have grow : filesGrow s s3 := fun p hp =>
                he1 p (hg1 p (by simpa [St.isFile] using hp))
              exact ⟨grow, grow _ hdes, he1 _ hg2, he2⟩

/-- A successful `run` leaves all three task files on disk and never deletes
a file. -/
theorem run_some_post {T E : Type} (ext : ExtEnv T E) (wd b : String)
    (item : BenchmarkItem) (ow : Bool) (tmo : Nat) (s : St) (r : RunResult) (s2 : St)
    (h : run ext wd b item ow tmo s = (some r, s2)) :
    filesGrow s s2 ∧ taskFilesOk s2 (wd, b, item) := by
  simp only [run] at h
  cases hb : runBody ext wd b item ow tmo (s.logLine (startMsg item.name b)) with
  | mk res s1 =>
    rw [hb] at h
    cases res with
    | error e => simp at h
    | ok r' =>
      simp only at h
      injection h with h1 h2
      subst h2
      obtain ⟨hg, htf⟩ := runBody_ok_post ext wd b item ow tmo _ r' s1 hb
      refine ⟨fun p hp => ?_, ?_, ?_, ?_⟩
      · simpa [St.isFile, St.logLine] using hg p (by simpa [St.isFile, St.logLine] using hp)
      · simpa [St.isFile, St.logLine] using htf.1
      · simpa [St.isFile, St.logLine] using htf.2.1
      · simpa [St.isFile, St.logLine] using htf.2.2

/-- After a first pass in which every task succeeded, every dispatched
task's design, tree and entropy files exist in the final state. -/
theorem runAll_all_ok_post {T E : Type} (ext : ExtEnv T E) (ow : Bool) (tmo : Nat) :
    ∀ (tasks : List TaskSpec) (s : St) (results : List (Option RunResult)) (s1 : St),
    runAll ext ow tmo tasks s = (results, s1) →
    (∀ o ∈ results, o.isSome = true) →
    filesGrow s s1 ∧ ∀ t ∈ tasks, taskFilesOk s1 t := by
  intro tasks
  induction tasks with
  | nil =>
    intro s results s1 h hall
    simp only [runAll] at h
    injection h with h1 h2
    subst h2
    exact ⟨fun p hp => hp, by simp⟩
  | cons t rest ih =>
    intro s results s1 h hall
    obtain ⟨wd, b, it⟩ := t
    simp only [runAll] at h
    cases hr : run ext wd b it ow tmo s with
    | mk r0 s0 =>
      rw [hr] at h
      cases hrest : runAll ext ow tmo rest s0 with
      | mk rs s1' =>
        rw [hrest] at h
        simp only at h
        injection h with h1 h2
        subst h1
        subst h2
        have hr0 : r0.isSome = true := hall r0 (List.mem_cons_self _ _)
        obtain ⟨r0v, hr0v⟩ := Option.isSome_iff_exists.mp hr0
        subst hr0v
        obtain ⟨g1, tf⟩ := run_some_post ext wd b it ow tmo s r0v s0 hr
        obtain ⟨g2, htasks⟩ := ih s0 rs s1' hrest
          (fun o ho => hall o (List.mem_cons_of_mem _ ho))
        refine ⟨fun p hp => g2 p (g1 p hp), ?_⟩
        intro t' ht'
        rcases List.mem_cons.mp ht' with rfl | hmem
        · exact ⟨g2 _ tf.1, g2 _ tf.2.1, g2 _ tf.2.2⟩
        · exact htasks t' hmem

/-- A run with overwrite off over a task whose three files already exist
writes nothing: the filesystem and directory set are unchanged, and a
successful outcome reports both recomputation flags false. -/
theorem run_second_no_overwrite {T E : Type} (ext : ExtEnv T E) (wd b : String)
    (item : BenchmarkItem) (tmo : Nat) (s : St)
    (hd : s.isFile (path wd item.files.design) = true)
    (ht : s.isFile (path wd item.files.tree) = true)
    (he : s.isFile (path wd item.files.entropy) = true) :
    ((run ext wd b item false tmo s).2).files = s.files ∧
    ((run ext wd b item false tmo s).2).dirs = s.dirs ∧
    ∀ r, (run ext wd b item false tmo s).1 = some r →
      r.tree_overwritten = false ∧ r.entropy_overwritten = false := by
  obtain ⟨dd, hdd⟩ : ∃ dd,
      s.files.lookup (path wd item.files.design) = some dd := by
    simpa only [St.isFile, Option.isSome_iff_exists] using hd
  obtain ⟨ct, hct⟩ : ∃ ct,
      s.files.lookup (path wd item.files.tree) = some ct := by
    simpa only [St.isFile, Option.isSome_iff_exists] using ht
  cases hdes : ext.parseDeserialize ct with
  | error e =>
    have hfile2 : (St.mk s.files s.dirs (s.clock + 1)
        (startMsg item.name b :: s.log)).isFile (path wd item.files.tree) = true := by
      simp [St.isFile, hct]
    have hstep := get_tree_data_deserialize_error ext (path wd item.files.tree) dd
      ct e item.majority_support
      ⟨s.files, s.dirs, s.clock + 1, startMsg item.name b :: s.log⟩
      hfile2 hct hdes
    simp only at hstep
    simp only [run, runBody, St.readFile, St.logLine, St.isFile, hdd]
    simp [hstep]
  | ok td =>
    have hstep : get_tree_data ext (path wd item.files.tree) dd
        item.majority_support false
        ⟨s.files, s.dirs, s.clock + 1, startMsg item.name b :: s.log⟩ =
        (.ok (td, false, 1),
          ⟨s.files, s.dirs, s.clock + 2, startMsg item.name b :: s.log⟩) := by
      have hcond : (false || !(St.mk s.files s.dirs (s.clock + 1)
          (startMsg item.name b :: s.log)).isFile (path wd item.files.tree)) = false := by
        simp [St.isFile, hct]
      simp [get_tree_data, hcond, St.readFile, hct, hdes]
    have hgen : generate_entropy_data ext (path wd item.files.entropy) td false tmo
        ⟨s.files, s.dirs, s.clock + 2, startMsg item.name b :: s.log⟩ =
        (.ok (false, 0),
          ⟨s.files, s.dirs, s.clock + 2, startMsg item.name b :: s.log⟩) := by
      have hcond : (false || !(St.mk s.files s.dirs (s.clock + 2)
          (startMsg item.name b :: s.log)).isFile (path wd item.files.entropy)) = false := by
        simp only [St.isFile] at he
        simp [St.isFile, he]
      simp [generate_entropy_data, hcond]
    simp only [run, runBody, St.readFile, St.logLine, St.isFile, hdd]
    simp [hstep, hgen]

/-- A second pass with overwrite off over tasks whose files all exist leaves
the filesystem and directories unchanged, and every reported row has both
recomputation flags false. -/
theorem runAll_second_no_overwrite {T E : Type} (ext : ExtEnv T E) (tmo : Nat) :
    ∀ (tasks : List TaskSpec) (s : St),
    (∀ t ∈ tasks, taskFilesOk s t) →
    ((runAll ext false tmo tasks s).2).files = s.files ∧
    ((runAll ext false tmo tasks s).2).dirs = s.dirs ∧
    ∀ r ∈ report (runAll ext false tmo tasks s).1,
      r.tree_overwritten = false ∧ r.entropy_overwritten = false := by
  intro tasks
  induction tasks with
  | nil =>
    intro s h
    exact ⟨rfl, rfl, by simp [report, runAll]⟩
  | cons t rest ih =>
    intro s h
    obtain ⟨wd, b, it⟩ := t
    have ht := h _ (List.mem_cons_self _ _)
    obtain ⟨hfiles, hdirs, hflags⟩ :=
      run_second_no_overwrite ext wd b it tmo s ht.1 ht.2.1 ht.2.2
    cases hr : run ext wd b it false tmo s with
    | mk r0 s0 =>
      rw [hr] at hfiles hdirs hflags
      simp only at hfiles hdirs hflags
      have hrest : ∀ t2 ∈ rest, taskFilesOk s0 t2 := by
        intro t2 ht2
        have h2 := h t2 (List.mem_cons_of_mem _ ht2)
        refine ⟨?_, ?_, ?_⟩
        · simpa [St.isFile, hfiles] using h2.1
        · simpa [St.isFile, hfiles] using h2.2.1
        · simpa [St.isFile, hfiles] using h2.2.2
      obtain ⟨h2files, h2dirs, h2flags⟩ := ih s0 hrest
      cases hall : runAll ext false tmo rest s0 with
      | mk rs s1 =>
        rw [hall] at h2files h2dirs h2flags
        simp only at h2files h2dirs h2flags
        simp only [runAll, hr, hall]
        refine ⟨by rw [h2files, hfiles], by rw [h2dirs, hdirs], ?_⟩
        intro r hrow
        cases hr0 : r0 with
        | none =>
          rw [hr0] at hrow
          simp only [report, List.filterMap_cons, id] at hrow
          exact h2flags r hrow
        | some r0v =>
          rw [hr0] at hrow
          simp only [report, List.filterMap_cons, id] at hrow
          rcases List.mem_cons.mp hrow with rfl | hmem
          · exact hflags r (by rw [hr0])
          · exact h2flags r hmem

/-- C4: idempotence. If a first pass over a task list succeeded for every
task, a second pass over the same root with overwrite off leaves every
artifact file unchanged, and every row of the second report has
tree_overwritten and entropy_overwritten false. -/
theorem c4_second_run_idempotent {T E : Type} (ext : ExtEnv T E) (ow : Bool)
    (tmo tmo2 : Nat) (tasks : List TaskSpec) (s : St)
    (results : List (Option RunResult)) (s1 : St)
    (hfirst : runAll ext ow tmo tasks s = (results, s1))
    (hall : ∀ o ∈ results, o.isSome = true) :
    ((runAll ext false tmo2 tasks s1).2).files = s1.files ∧
    ((runAll ext false tmo2 tasks s1).2).dirs = s1.dirs ∧
    ∀ r ∈ report (runAll ext false tmo2 tasks s1).1,
      r.tree_overwritten = false ∧ r.entropy_overwritten = false := by
  obtain ⟨hg, htasks⟩ := runAll_all_ok_post ext ow tmo tasks s results s1 hfirst hall
  exact runAll_second_no_overwrite ext tmo2 tasks s1 htasks

/-- C4 witness: a concrete successful first run followed by a second run
with overwrite off changes no file and reports no recomputation. -/
theorem c4_witness :
    ((runAll extId false 0 tasks0 ((runAll extId false 0 tasks0 stD).2)).2).files =
      ((runAll extId false 0 tasks0 stD).2).files ∧
    ((runAll extId false 0 tasks0 ((runAll extId false 0 tasks0 stD).2)).2).dirs =
      ((runAll extId false 0 tasks0 stD).2).dirs ∧
    ∀ r ∈ report (runAll extId false 0 tasks0 ((runAll extId false 0 tasks0 stD).2)).1,
      r.tree_overwritten = false ∧ r.entropy_overwritten = false :=
  c4_second_run_idempotent extId false 0 0 tasks0 stD
    (runAll extId false 0 tasks0 stD).1 (runAll extId false 0 tasks0 stD).2
    rfl (by decide)
